import Mathlib

/-!
Shallow embedding of the eden-go-logger logging library (Go) in Lean 4.

Each definition mirrors one Go function or type from the repository
(`logger.go`, `filter.go`, `rolling.go`, the appender/layout/async files).
Machine integers are modelled as `Int`, Go `float64` as `ℚ` (the burst-filter
arithmetic only adds, multiplies, clamps and compares, so the exact-arithmetic
model agrees with the float control flow on the inputs used here), and
`time.Time` as a rational (seconds) or integer timestamp.  Filesystem effects
of the rolling appender are modelled by an explicit environment (whether a
rename/open/write succeeds, the directory listing) plus a trace of filesystem
operations; `time.Now()` values are passed in as parameters (Go's monotonic
clock guarantees they never decrease within a process).
-/

/-! ## Levels (`logger.go`) -/

/-- Go `type Level int`; the constants below mirror the `iota` block. -/
abbrev Level := Int

def TRACE : Level := 0
def DEBUG : Level := 1
def INFO : Level := 2
def WARN : Level := 3
def ERROR : Level := 4
def FATAL : Level := 5
def OFF : Level := 6

/-- The `levelValues` map literal from `logger.go`, as an association list
(keys are pairwise distinct, so lookup agrees with the Go map). -/
def levelValues : List (String × Level) :=
  [("TRACE", TRACE), ("DEBUG", DEBUG), ("INFO", INFO), ("WARN", WARN),
   ("ERROR", ERROR), ("FATAL", FATAL), ("OFF", OFF),
   ("trace", TRACE), ("debug", DEBUG), ("info", INFO), ("warn", WARN),
   ("error", ERROR), ("fatal", FATAL)]

/-- Go `ParseLevel`: map lookup, defaulting to `INFO` when the key is absent. -/
def ParseLevel (s : String) : Level :=
  match levelValues.lookup s with
  | some l => l
  | none => INFO

/-! ## Entries (`logger.go`) -/

/-- Go `CallerInfo`. -/
structure CallerInfo where
  file : String
  line : Int
  function : String
deriving DecidableEq, Repr

/-- Go `Entry`.  `Context` and `Fields` are `map[string]interface{}`; the
filters and the logger only copy them, so string values suffice for the model.
`Error` carries just the error message. -/
structure Entry where
  time : Int
  level : Level
  message : String
  logger : String
  marker : String
  context : List (String × String)
  caller : CallerInfo
  err : Option String
  fields : List (String × String)
deriving DecidableEq, Repr

/-! ## Filter results (`filter.go`) -/

/-- Go `FilterResult` (`ACCEPT`/`DENY`/`NEUTRAL` from the `iota` block). -/
inductive FilterResult where
  | ACCEPT
  | DENY
  | NEUTRAL
deriving DecidableEq, Repr

export FilterResult (ACCEPT DENY NEUTRAL)

/-! ## CompositeFilter (`filter.go`)

A Go `Filter` is an interface with a single method `Decide(*Entry)
FilterResult`; it is embedded as a function `Entry → FilterResult`.
`CompositeMode` is a Go `int` (`ALL = 0`, `ANY = 1`), kept as `Int` so the
`switch` statement's fall-through to `NEUTRAL` for other values is preserved. -/

def ALL : Int := 0
def ANY : Int := 1

/-- The `case ALL` loop body of `CompositeFilter.Decide`: first child returning
`DENY` short-circuits, otherwise `ACCEPT`. -/
def allLoop (e : Entry) : List (Entry → FilterResult) → FilterResult
  | [] => ACCEPT
  | f :: rest => if f e = DENY then DENY else allLoop e rest

/-- The `case ANY` loop body of `CompositeFilter.Decide`: first child returning
`ACCEPT` short-circuits, otherwise `DENY`. -/
def anyLoop (e : Entry) : List (Entry → FilterResult) → FilterResult
  | [] => DENY
  | f :: rest => if f e = ACCEPT then ACCEPT else anyLoop e rest

/-- Go `CompositeFilter.Decide`: empty child list yields `NEUTRAL`; then the
mode switch (with `NEUTRAL` for any mode other than `ALL`/`ANY`). -/
def compositeDecide (mode : Int) (filters : List (Entry → FilterResult)) (e : Entry) :
    FilterResult :=
  if filters.length = 0 then NEUTRAL
  else if mode = ALL then allLoop e filters
  else if mode = ANY then anyLoop e filters
  else NEUTRAL

/-! ## BurstFilter (`filter.go`)

`tokens` and `rate` are Go `float64`, modelled as `ℚ`; `lastRefill` is a
`time.Time`, modelled as rational seconds.  `Decide`'s mutation of the filter
under its mutex becomes explicit state passing (the mutex serialises calls, so
sequential state passing is the faithful interleaving model). -/

structure BurstF where
  level : Level
  rate : ℚ
  maxBurst : Int
  onMatch : FilterResult
  onMismatch : FilterResult
  tokens : ℚ
  lastRefill : ℚ

/-- Go `NewBurstFilter` (`now` is the `time.Now()` at creation). -/
def NewBurstFilter (level : Level) (rate : ℚ) (maxBurst : Int) (now : ℚ) : BurstF :=
  { level := level
    rate := rate
    maxBurst := maxBurst
    onMatch := ACCEPT
    onMismatch := DENY
    tokens := (maxBurst : ℚ)
    lastRefill := now }

/-- Go `BurstFilter.Decide` for an entry at level `entryLevel`, called at time
`now`; returns the decision and the updated filter state. -/
def burstDecide (f : BurstF) (entryLevel : Level) (now : ℚ) : FilterResult × BurstF :=
  if entryLevel < f.level then (NEUTRAL, f)
  else
    let elapsed := now - f.lastRefill
    let t1 := f.tokens + elapsed * f.rate
    let t2 := if t1 > (f.maxBurst : ℚ) then (f.maxBurst : ℚ) else t1
    if t2 ≥ 1 then
      (f.onMatch, { f with tokens := t2 - 1, lastRefill := now })
    else
      (f.onMismatch, { f with tokens := t2, lastRefill := now })

/-! ## Logger dispatch (`logger.go`)

`Logger.log` has no return value; its observable behaviour is the sequence of
effects it performs (cloning the MDC, building the `Entry`, invoking each
appender).  That sequence is the model's return value.  The printf-style
formatting `fmt.Sprintf(format, args...)` is external (`fmt` package); the
already-formatted message is passed in.  `getCaller` is external (`runtime`
package); the caller info it would report is passed in. -/

structure LoggerS where
  name : String
  level : Level
  includeLocation : Bool
  numAppenders : Nat
  mdc : List (String × String)

/-- One observable effect of `Logger.log`. -/
inductive LogEvent where
  | mdcCloned
  | entryBuilt (e : Entry)
  | appended (i : Nat) (e : Entry)
deriving DecidableEq, Repr

/-- Go `Logger.IsEnabled`. -/
def IsEnabled (l : LoggerS) (level : Level) : Bool :=
  decide (l.level ≤ level)

/-- Go `Logger.log`: level gate, then build the entry (cloning the MDC into
`Context`) and invoke `Append` on every registered appender in order. -/
def logE (l : LoggerS) (level : Level) (marker fmtMsg : String) (now : Int)
    (caller : CallerInfo) : List LogEvent :=
  if IsEnabled l level = false then []
  else
    let c := if l.includeLocation then caller else { file := "", line := 0, function := "" }
    let e : Entry :=
      { time := now, level := level, message := fmtMsg, logger := l.name,
        marker := marker, context := l.mdc, caller := c, err := none, fields := [] }
    LogEvent.mdcCloned :: LogEvent.entryBuilt e ::
      (List.range l.numAppenders).map (fun i => LogEvent.appended i e)

/-! ## AsyncAppender (async appender file)

`Close` uses `sync.Once`: the body (close the channel, wait for the worker,
close the delegate) runs on the first call only; `sync.Once` serialises
concurrent callers and later calls are no-ops, so sequential state passing over
the calls is the faithful model.  The local `var err error` starts `nil` and is
assigned only inside the `once.Do` body, so a skipped body returns `nil`. -/

/-- Errors that the modelled Go functions can return. -/
inductive GoErr where
  | renameFailed
  | openFailed
  | writeFailed
  | delegateCloseFailed
deriving DecidableEq, Repr

/-- Observable state of an `AsyncAppender`'s shutdown path: whether `once.Do`
has fired, how many times the shutdown body (channel close + drain + join) ran,
and how many times the delegate's `Close` was invoked. -/
structure AsyncS where
  onceDone : Bool
  shutdownRuns : Nat
  delegateCloses : Nat
deriving DecidableEq, Repr

/-- A freshly constructed `AsyncAppender` (from `NewAsyncAppender`). -/
def asyncInit : AsyncS := { onceDone := false, shutdownRuns := 0, delegateCloses := 0 }

/-- Go `AsyncAppender.Close`; `derr` is what `delegate.Close()` would return.
Returns the error returned to the caller and the new state. -/
def asyncClose (s : AsyncS) (derr : Option GoErr) : Option GoErr × AsyncS :=
  if s.onceDone then (none, s)
  else
    (derr,
     { onceDone := true,
       shutdownRuns := s.shutdownRuns + 1,
       delegateCloses := s.delegateCloses + 1 })

/-- `n` further sequential `Close` calls after some state. -/
def asyncCloseIter (derr : Option GoErr) : Nat → AsyncS → AsyncS
  | 0, s => s
  | n + 1, s => asyncCloseIter derr n (asyncClose s derr).2

/-! ## Cron schedule parsing (`rolling.go`) -/

/-- The ASCII cases of Go `unicode.IsSpace` (cron schedules contain no other
Unicode space characters). -/
def isGoSpace (c : Char) : Bool :=
  c = ' ' ∨ c = '\t' ∨ c = '\n' ∨ c = '\x0b' ∨ c = '\x0c' ∨ c = '\r'

/-- Accumulator pass over the characters: split at whitespace runs. -/
def fieldsAux : List Char → List Char → List String
  | acc, [] => if acc.isEmpty then [] else [String.mk acc.reverse]
  | acc, c :: rest =>
    if isGoSpace c then
      if acc.isEmpty then fieldsAux [] rest
      else String.mk acc.reverse :: fieldsAux [] rest
    else fieldsAux (c :: acc) rest

/-- Go `strings.Fields`: the maximal whitespace-free substrings, in order. -/
def goFields (s : String) : List String := fieldsAux [] s.data

/-- Numeric value of a digit string. -/
def digitsVal (cs : List Char) : Nat :=
  cs.foldl (fun acc c => acc * 10 + (c.toNat - '0'.toNat)) 0

/-- Models `var h int; fmt.Sscanf(s, "%d", &h); return h`: `%d` reads an
optional sign followed by decimal digits; when nothing matches, `h` keeps its
zero value.  (The inputs come from `strings.Fields`, so they carry no leading
whitespace.) -/
def sscanfD (s : String) : Int :=
  match s.data with
  | '-' :: rest =>
    let ds := rest.takeWhile Char.isDigit
    if ds = [] then 0 else -(digitsVal ds : Int)
  | '+' :: rest =>
    let ds := rest.takeWhile Char.isDigit
    if ds = [] then 0 else (digitsVal ds : Int)
  | cs =>
    let ds := cs.takeWhile Char.isDigit
    if ds = [] then 0 else (digitsVal ds : Int)

/-- Go `parseCronHour`: with at least 3 whitespace-separated fields, scan the
third with `%d`; otherwise default to 4. -/
def parseCronHour (schedule : String) : Int :=
  let parts := goFields schedule
  if 3 ≤ parts.length then sscanfD ((parts.get? 2).getD "")
  else 4

/-- Go `CronBasedPolicy`. -/
structure CronBasedPolicy where
  schedule : String
  hour : Int
  lastRoll : Int
deriving DecidableEq, Repr

/-- Go `NewCronBasedPolicy` (`now` is the `time.Now()` at creation). -/
def NewCronBasedPolicy (schedule : String) (now : Int) : CronBasedPolicy :=
  { schedule := schedule, hour := parseCronHour schedule, lastRoll := now }

/-! ## Rolling file appender: cleanup (`rolling.go`)

The directory listing (`os.ReadDir` plus per-file `Info()`) is modelled as a
list of entries; `Info()` failure is the `infoErr` flag (such files are
skipped).  Paths are modelled flat (the file name stands for
`filepath.Join(dir, name)`, with the directory fixed throughout one cleanup). -/

/-- One entry of the directory listing, with the metadata `cleanup` reads. -/
structure DirEntry where
  name : String
  isDir : Bool
  infoErr : Bool
  modTime : Int
  size : Int
deriving DecidableEq, Repr

/-- The backup-name test from `cleanup`:
`len(name) > len(base) && name[:len(base)] == base`. -/
def isBackupName (base name : String) : Bool :=
  base.length < name.length ∧ name.take base.length = base

/-- The collection loop of `cleanup`: skip directories, keep files whose name
strictly extends the base name and whose `Info()` succeeds, in listing order. -/
def collectBackups (base : String) (files : List DirEntry) : List DirEntry :=
  files.filter (fun f => !f.isDir && isBackupName base f.name && !f.infoErr)

/-- Insert into a list sorted by ascending modification time. -/
def insertByModTime (b : DirEntry) : List DirEntry → List DirEntry
  | [] => [b]
  | c :: rest =>
    if b.modTime ≤ c.modTime then b :: c :: rest else c :: insertByModTime b rest

/-- The `sort.Slice(..., modTime Before)` call of `cleanup`, as insertion sort
(one of the orders the unstable Go sort may produce; the cleanup claims depend
only on the modification times, which every such order agrees on). -/
def sortByModTime : List DirEntry → List DirEntry
  | [] => []
  | b :: rest => insertByModTime b (sortByModTime rest)

/-- The count-pruning loop of `cleanup`
(`for len(backups) > maxBackups && maxBackups > 0`): returns
`(survivors, removed-in-order)`. -/
def pruneByCount (maxBackups : Int) : List DirEntry → List DirEntry × List DirEntry
  | [] => ([], [])
  | b :: rest =>
    if (b :: rest).length > maxBackups ∧ maxBackups > 0 then
      ((pruneByCount maxBackups rest).1, b :: (pruneByCount maxBackups rest).2)
    else (b :: rest, [])

/-- The age-pruning pass of `cleanup`: when `maxAge > 0`, remove every backup
whose modification time is strictly before `now - maxAge`. -/
def pruneByAge (maxAge now : Int) (bs : List DirEntry) : List DirEntry × List DirEntry :=
  if maxAge > 0 then
    (bs.filter (fun b => ¬ b.modTime < now - maxAge),
     bs.filter (fun b => b.modTime < now - maxAge))
  else (bs, [])

/-- The size-pruning loop of `cleanup`
(`for totalSize > totalMaxSize && len(backups) > 0`). -/
def sizeLoop (limit : Int) (total : Int) : List DirEntry → List DirEntry × List DirEntry
  | [] => ([], [])
  | b :: rest =>
    if total > limit then
      ((sizeLoop limit (total - b.size) rest).1, b :: (sizeLoop limit (total - b.size) rest).2)
    else (b :: rest, [])

/-- The size-pruning pass of `cleanup`: when `totalMaxSize > 0`, drop oldest
first until the summed size fits. -/
def pruneBySize (limit : Int) (bs : List DirEntry) : List DirEntry × List DirEntry :=
  if limit > 0 then sizeLoop limit (bs.foldl (fun acc b => acc + b.size) 0) bs
  else (bs, [])

/-! ## Rolling file appender: state, rollover, Append (`rolling.go`)

A Go `RollingPolicy` is an interface `{ShouldRoll(entry, fileInfo) bool;
GetNextFileName(baseName, index) string}`; it is embedded as a structure of
functions.  The open file handle is modelled by the path it was opened at
(`open` only ever opens `r.filename`).  Filesystem outcomes (rename/open/write
success, `Stat` success, the `Stat` result, the directory listing read by
`cleanup`) come from an environment record; each filesystem action performed is
recorded in a trace. -/

/-- The part of `os.FileInfo` that the policies read. -/
structure FileInfo where
  size : Int
  modTime : Int
deriving DecidableEq, Repr

/-- Go `RollingPolicy` interface value. -/
structure PolicyI where
  shouldRoll : Entry → FileInfo → Bool
  nextFileName : String → Int → String

/-- Go `RollingFileAppender` (the fields `Append`/`rollover`/`cleanup` use;
`layout.Format` is the external `Layout` interface, embedded as a function). -/
structure RFA where
  filename : String
  file : Option String
  policies : List PolicyI
  maxBackups : Int
  maxAge : Int
  totalMaxSize : Int
  currentIndex : Int
  filter : Option (Entry → FilterResult)
  layout : Entry → String

/-- One filesystem action performed by the rolling appender. -/
inductive FsOp where
  | closeFile (path : String)
  | rename (oldPath newPath : String)
  | removeFile (path : String)
  | openFile (path : String)
  | writeData (path data : String)
deriving DecidableEq, Repr

/-- Result of one modelled method call: returned error, new appender state,
and the filesystem actions performed, in order. -/
structure StepOut where
  err : Option GoErr
  st : RFA
  ops : List FsOp

/-- Filesystem/environment oracle for one `Append`/`rollover` call. -/
structure FsEnv where
  renameOk : Bool
  openOk : Bool
  writeOk : Bool
  statOk : Bool
  info : FileInfo
  dirList : List DirEntry
  now : Int

/-- Go `RollingFileAppender.cleanup`, returning the surviving backups and the
names removed (in `os.Remove` call order).  When both `maxBackups` and
`totalMaxSize` are unset the method returns before scanning the directory, so
nothing is removed. -/
def cleanupRun (r : RFA) (now : Int) (files : List DirEntry) :
    List DirEntry × List String :=
  if r.maxBackups ≤ 0 ∧ r.totalMaxSize ≤ 0 then (collectBackups r.filename files, [])
  else
    let backups := sortByModTime (collectBackups r.filename files)
    let c := pruneByCount r.maxBackups backups
    let a := pruneByAge r.maxAge now c.1
    let z := pruneBySize r.totalMaxSize a.1
    (z.1, (c.2 ++ a.2 ++ z.2).map (fun b => b.name))

/-- Go `RollingFileAppender.open`: no-op when a file is open; otherwise open
`r.filename` for append (directory creation is a no-op in the flat-path
model). -/
def openE (r : RFA) (env : FsEnv) : StepOut :=
  match r.file with
  | some _ => { err := none, st := r, ops := [] }
  | none =>
    if env.openOk then
      { err := none, st := { r with file := some r.filename }, ops := [FsOp.openFile r.filename] }
    else
      { err := some GoErr.openFailed, st := r, ops := [FsOp.openFile r.filename] }

/-- The backup-name computation of `rollover`: the first configured policy
names the backup; with no policies, `fmt.Sprintf("%s.%d", filename, index)`. -/
def nextName (r : RFA) : String :=
  match r.policies with
  | p :: _ => p.nextFileName r.filename r.currentIndex
  | [] => r.filename ++ "." ++ toString r.currentIndex

/-- Go `RollingFileAppender.rollover`: close the current file, bump the index,
rename the file to the backup name; on rename failure reopen the original
(discarding the reopen error) and return the rename error; on success run
`cleanup`, then reopen a fresh file at the original name, returning that
open's result. -/
def rollover (r : RFA) (env : FsEnv) : StepOut :=
  match r.file with
  | none => { err := none, st := r, ops := [] }
  | some p =>
    let r1 : RFA := { r with file := none, currentIndex := r.currentIndex + 1 }
    let nn := nextName r1
    if env.renameOk then
      let removed := (cleanupRun r1 env.now env.dirList).2
      let o := openE r1 env
      { err := o.err, st := o.st,
        ops := FsOp.closeFile p :: FsOp.rename r1.filename nn ::
          (removed.map FsOp.removeFile ++ o.ops) }
    else
      let o := openE r1 env
      { err := some GoErr.renameFailed, st := o.st,
        ops := FsOp.closeFile p :: FsOp.rename r1.filename nn :: o.ops }

/-- Go `RollingFileAppender.shouldRoll`: false with no open file, no policies,
or a failed `Stat`; otherwise true when any policy triggers. -/
def shouldRollE (r : RFA) (e : Entry) (env : FsEnv) : Bool :=
  match r.file with
  | none => false
  | some _ =>
    if r.policies.length = 0 then false
    else if !env.statOk then false
    else r.policies.any (fun p => p.shouldRoll e env.info)

/-- Go `BaseAppender.applyFilter`: absent filter accepts; otherwise any
non-`DENY` decision allows the entry. -/
def applyFilterE (filter : Option (Entry → FilterResult)) (e : Entry) : Bool :=
  match filter with
  | none => true
  | some fl => decide (fl e ≠ DENY)

/-- Go `RollingFileAppender.Append`: filter, open, roll if triggered (an error
from `rollover` is returned to the caller), then format and write. -/
def appendE (r : RFA) (e : Entry) (env : FsEnv) : StepOut :=
  if applyFilterE r.filter e = false then { err := none, st := r, ops := [] }
  else
    let o := openE r env
    match o.err with
    | some er => { err := some er, st := o.st, ops := o.ops }
    | none =>
      if shouldRollE o.st e env then
        let ro := rollover o.st env
        match ro.err with
        | some er => { err := some er, st := ro.st, ops := o.ops ++ ro.ops }
        | none =>
          let wr := FsOp.writeData (ro.st.file.getD "") (ro.st.layout e)
          { err := if env.writeOk then none else some GoErr.writeFailed,
            st := ro.st, ops := o.ops ++ ro.ops ++ [wr] }
      else
        let wr := FsOp.writeData (o.st.file.getD "") (o.st.layout e)
        { err := if env.writeOk then none else some GoErr.writeFailed,
          st := o.st, ops := o.ops ++ [wr] }

/-! ## Concrete policy instances (`rolling.go`) -/

/-- Go `filepath.Ext` for flat names: the suffix starting at the final dot,
empty when there is no dot. -/
def goExt (s : String) : String :=
  if s.data.contains '.' then
    String.mk ('.' :: (s.data.reverse.takeWhile (fun c => c ≠ '.')).reverse)
  else ""

/-- Go `SizeBasedPolicy.GetNextFileName`:
`fmt.Sprintf("%s.%d%s", name-without-ext, index, ext)`. -/
def sizeNextFileName (baseName : String) (index : Int) : String :=
  let ext := goExt baseName
  let name := baseName.take (baseName.length - ext.length)
  name ++ "." ++ toString index ++ ext

/-- Go `NewSizeBasedPolicy` as a `RollingPolicy` value: triggers once the file
size reaches `maxBytes`. -/
def sizePolicyI (maxBytes : Int) : PolicyI :=
  { shouldRoll := fun _ info => decide (maxBytes ≤ info.size)
    nextFileName := sizeNextFileName }

/-! ## Concrete sample values (used by witnesses and counterexamples) -/

/-- A concrete log entry at `INFO`. -/
def e1 : Entry :=
  { time := 0, level := INFO, message := "hello", logger := "app", marker := "",
    context := [], caller := { file := "", line := 0, function := "" },
    err := none, fields := [] }

/-- A burst filter at threshold `INFO` with a full bucket. -/
def burstBelow : BurstF :=
  { level := INFO, rate := 1, maxBurst := 5, onMatch := ACCEPT, onMismatch := DENY,
    tokens := 5, lastRefill := 0 }

/-- A rolling appender with an open file and a size policy that always
triggers. -/
def rC2 : RFA :=
  { filename := "app.log", file := some "app.log", policies := [sizePolicyI 0],
    maxBackups := 7, maxAge := 0, totalMaxSize := 0, currentIndex := 0,
    filter := none, layout := fun _ => "" }

/-- An environment in which the rename fails but opens succeed. -/
def envC2 : FsEnv :=
  { renameOk := false, openOk := true, writeOk := true, statOk := true,
    info := { size := 0, modTime := 0 }, dirList := [], now := 0 }

/-- A rolling appender with a positive `maxAge` but `maxBackups` and
`totalMaxSize` both unset (zero). -/
def rGuard : RFA :=
  { filename := "app.log", file := none, policies := [],
    maxBackups := 0, maxAge := 10, totalMaxSize := 0, currentIndex := 0,
    filter := none, layout := fun _ => "" }

/-- A backup of `app.log` last modified at time 0. -/
def fOld : DirEntry :=
  { name := "app.log.1", isDir := false, infoErr := false, modTime := 0, size := 1 }

/-- A logger at level `INFO` with two appenders. -/
def lC7 : LoggerS :=
  { name := "app", level := INFO, includeLocation := false, numAppenders := 2,
    mdc := [("k", "v")] }

/-! ## Helper lemmas -/

theorem allLoop_eq_deny (e : Entry) (l : List (Entry → FilterResult))
    (h : ∃ f ∈ l, f e = DENY) : allLoop e l = DENY := by
  induction l with
  | nil => simp at h
  | cons g rest ih =>
    rw [allLoop]
    by_cases hg : g e = DENY
    · rw [if_pos hg]
    · rw [if_neg hg]
      apply ih
      rcases h with ⟨f, hf, hfd⟩
      rcases List.mem_cons.mp hf with rfl | hf'
      · exact absurd hfd hg
      · exact ⟨f, hf', hfd⟩

theorem allLoop_eq_accept (e : Entry) (l : List (Entry → FilterResult))
    (h : ∀ f ∈ l, f e ≠ DENY) : allLoop e l = ACCEPT := by
  induction l with
  | nil => rfl
  | cons g rest ih =>
    rw [allLoop, if_neg (h g (List.mem_cons_self g rest))]
    exact ih (fun f hf => h f (List.mem_cons_of_mem g hf))

theorem anyLoop_eq_accept (e : Entry) (l : List (Entry → FilterResult))
    (h : ∃ f ∈ l, f e = ACCEPT) : anyLoop e l = ACCEPT := by
  induction l with
  | nil => simp at h
  | cons g rest ih =>
    rw [anyLoop]
    by_cases hg : g e = ACCEPT
    · rw [if_pos hg]
    · rw [if_neg hg]
      apply ih
      rcases h with ⟨f, hf, hfd⟩
      rcases List.mem_cons.mp hf with rfl | hf'
      · exact absurd hfd hg
      · exact ⟨f, hf', hfd⟩

theorem anyLoop_eq_deny (e : Entry) (l : List (Entry → FilterResult))
    (h : ∀ f ∈ l, f e ≠ ACCEPT) : anyLoop e l = DENY := by
  induction l with
  | nil => rfl
  | cons g rest ih =>
    rw [anyLoop, if_neg (h g (List.mem_cons_self g rest))]
    exact ih (fun f hf => h f (List.mem_cons_of_mem g hf))

theorem lookup_eq_none_of_not_mem_keys (s : String) :
    ∀ l : List (String × Level), s ∉ l.map Prod.fst → l.lookup s = none := by
  intro l
  induction l with
  | nil => intro _; rfl
  | cons kv rest ih =>
    intro h
    cases kv with
    | mk k v =>
      have hne : s ≠ k := by
        intro hh
        exact h (by simp [hh])
      rw [List.lookup]
      rw [show (s == k) = false from beq_eq_false_iff_ne.mpr hne]
      exact ih (fun hm => h (by simp [List.mem_cons]; right; simpa using hm))

theorem mem_insertByModTime (b x : DirEntry) (l : List DirEntry) :
    x ∈ insertByModTime b l ↔ x = b ∨ x ∈ l := by
  induction l with
  | nil => simp [insertByModTime]
  | cons c rest ih =>
    rw [insertByModTime]
    split
    · simp [List.mem_cons]
    · simp only [List.mem_cons, ih]
      tauto

theorem mem_sortByModTime (l : List DirEntry) (x : DirEntry) :
    x ∈ sortByModTime l ↔ x ∈ l := by
  induction l with
  | nil => simp [sortByModTime]
  | cons b rest ih =>
    rw [sortByModTime, mem_insertByModTime]
    simp [List.mem_cons, ih]

theorem pruneByCount_mem (m : Int) (bs : List DirEntry) (x : DirEntry) (hx : x ∈ bs) :
    x ∈ (pruneByCount m bs).1 ∨ x ∈ (pruneByCount m bs).2 := by
  induction bs with
  | nil => cases hx
  | cons b rest ih =>
    rw [pruneByCount]
    split
    · rcases List.mem_cons.mp hx with rfl | hx'
      · right; exact List.mem_cons_self x _
      · rcases ih hx' with h | h
        · left; exact h
        · right; exact List.mem_cons_of_mem b h
    · left; exact hx

theorem asyncCloseIter_of_done (derr : Option GoErr) (n : Nat) (s : AsyncS)
    (h : s.onceDone = true) : asyncCloseIter derr n s = s := by
  induction n with
  | zero => rfl
  | succ k ih => rw [asyncCloseIter, asyncClose, if_pos h]; exact ih

/-! ## Claim theorems -/

/-- C3 counterexample: an empty `CompositeFilter` returns `NEUTRAL` in both
modes, although the claim demands `ACCEPT` in `ALL` mode (all zero children are
non-`DENY`) and `DENY` in `ANY` mode (no child returns `ACCEPT`). -/
theorem composite_empty_neutral_cex :
    compositeDecide ALL [] e1 = NEUTRAL ∧ NEUTRAL ≠ ACCEPT ∧
    compositeDecide ANY [] e1 = NEUTRAL ∧ NEUTRAL ≠ DENY :=
  ⟨rfl, by decide, rfl, by decide⟩

/-- C3 (amended: the composite has at least one child): in `ALL` mode a child
deciding `DENY` forces `DENY` and all children non-`DENY` force `ACCEPT`; in
`ANY` mode a child deciding `ACCEPT` forces `ACCEPT`, otherwise `DENY`. -/
theorem composite_decide_modes (filters : List (Entry → FilterResult)) (e : Entry)
    (hne : filters ≠ []) :
    ((∃ f ∈ filters, f e = DENY) → compositeDecide ALL filters e = DENY) ∧
    ((∀ f ∈ filters, f e ≠ DENY) → compositeDecide ALL filters e = ACCEPT) ∧
    ((∃ f ∈ filters, f e = ACCEPT) → compositeDecide ANY filters e = ACCEPT) ∧
    ((∀ f ∈ filters, f e ≠ ACCEPT) → compositeDecide ANY filters e = DENY) := by
  have hlen : ¬ filters.length = 0 := by
    simpa [List.length_eq_zero] using hne
  refine ⟨fun h => ?_, fun h => ?_, fun h => ?_, fun h => ?_⟩
  · rw [compositeDecide, if_neg hlen, if_pos rfl]
    exact allLoop_eq_deny e filters h
  · rw [compositeDecide, if_neg hlen, if_pos rfl]
    exact allLoop_eq_accept e filters h
  · rw [compositeDecide, if_neg hlen, if_neg (by decide), if_pos rfl]
    exact anyLoop_eq_accept e filters h
  · rw [compositeDecide, if_neg hlen, if_neg (by decide), if_pos rfl]
    exact anyLoop_eq_deny e filters h

/-- C3 witness: a singleton `ALL` composite with a denying child decides
`DENY`; a singleton `ANY` composite with a neutral child decides `DENY`. -/
theorem composite_decide_modes_witness :
    compositeDecide ALL [fun _ => DENY] e1 = DENY ∧
    compositeDecide ANY [fun _ => NEUTRAL] e1 = DENY := by
  constructor
  · exact (composite_decide_modes [fun _ => DENY] e1 (by simp)).1
      ⟨fun _ => DENY, List.mem_singleton.mpr rfl, rfl⟩
  · refine (composite_decide_modes [fun _ => NEUTRAL] e1 (by simp)).2.2.2 ?_
    intro f hf
    rw [List.mem_singleton.mp hf]
    decide

/-- C4 counterexample: for an entry strictly below the filter's level,
`Decide` returns before touching the bucket, so `lastRefill` keeps its old
value (0) instead of being updated to the call time (5). -/
theorem burst_below_level_lastRefill_cex :
    (burstDecide burstBelow TRACE 5).2.lastRefill = 0 ∧ (0 : ℚ) ≠ 5 :=
  ⟨rfl, by decide⟩

/-- C4 (amended: only for entries at or above the filter's configured level):
`Decide` sets `lastRefill` to the current time whether the decision is
`onMatch` or `onMismatch`; below-level entries leave the state untouched. -/
theorem burst_updates_lastRefill (f : BurstF) (lvl : Level) (now : ℚ)
    (h : f.level ≤ lvl) :
    ((burstDecide f lvl now).2).lastRefill = now := by
  rw [burstDecide, if_neg (not_lt.mpr h)]
  dsimp only
  split <;> split <;> rfl

/-- C4 witness: an `ERROR` entry against an `INFO`-level burst filter updates
`lastRefill` to the call time. -/
theorem burst_updates_lastRefill_witness :
    ((burstDecide burstBelow ERROR 7).2).lastRefill = 7 :=
  burst_updates_lastRefill burstBelow ERROR 7 (by decide)

/-- C9: an entry strictly below the burst filter's configured level always
yields `NEUTRAL`, whatever the token count. -/
theorem burst_below_level_neutral (f : BurstF) (lvl : Level) (now : ℚ)
    (h : lvl < f.level) :
    (burstDecide f lvl now).1 = NEUTRAL := by
  rw [burstDecide, if_pos h]

/-- C9 witness: a `DEBUG` entry against an `INFO`-level burst filter with a
full bucket is `NEUTRAL`. -/
theorem burst_below_level_neutral_witness :
    (burstDecide burstBelow DEBUG 3).1 = NEUTRAL :=
  burst_below_level_neutral burstBelow DEBUG 3 (by decide)

/-- C7: a log call strictly below the logger's level returns at the gate:
no MDC clone, no `Entry` construction, no appender invocation. -/
theorem log_below_level_no_effects (l : LoggerS) (level : Level)
    (marker fmtMsg : String) (now : Int) (caller : CallerInfo)
    (h : level < l.level) :
    logE l level marker fmtMsg now caller = [] := by
  rw [logE, if_pos]
  rw [IsEnabled, decide_eq_false_iff_not]
  exact not_le.mpr h

/-- C7 witness: a `DEBUG` call on an `INFO` logger with two appenders produces
no effect. -/
theorem log_below_level_no_effects_witness :
    logE lC7 DEBUG "" "msg" 9 { file := "f", line := 1, function := "g" } = [] :=
  log_below_level_no_effects lC7 DEBUG "" "msg" 9
    { file := "f", line := 1, function := "g" } (by decide)

/-- C6: `AsyncAppender.Close` is idempotent: the first call runs the shutdown
body once and returns the delegate's error; after any number of further calls
the shutdown-run and delegate-close counters still read 1, and the next call
returns `nil`. -/
theorem async_close_idempotent (derr : Option GoErr) (n : Nat) :
    (asyncClose asyncInit derr).1 = derr ∧
    (asyncCloseIter derr n (asyncClose asyncInit derr).2).shutdownRuns = 1 ∧
    (asyncCloseIter derr n (asyncClose asyncInit derr).2).delegateCloses = 1 ∧
    (asyncClose (asyncCloseIter derr n (asyncClose asyncInit derr).2) derr).1 = none := by
  have hstep : (asyncClose asyncInit derr).2 =
      { onceDone := true, shutdownRuns := 1, delegateCloses := 1 } := rfl
  rw [hstep, asyncCloseIter_of_done derr n _ rfl]
  exact ⟨rfl, rfl, rfl, rfl⟩

/-- C10: `ParseLevel` recognises the seven uppercase names and the six
lowercase names (every level except `OFF`); lowercase `off`, mixed case and
arbitrary strings fall back to `INFO` (no error is possible). -/
theorem parse_level_spec :
    (ParseLevel "TRACE" = TRACE ∧ ParseLevel "DEBUG" = DEBUG ∧ ParseLevel "INFO" = INFO ∧
     ParseLevel "WARN" = WARN ∧ ParseLevel "ERROR" = ERROR ∧ ParseLevel "FATAL" = FATAL ∧
     ParseLevel "OFF" = OFF) ∧
    (ParseLevel "trace" = TRACE ∧ ParseLevel "debug" = DEBUG ∧ ParseLevel "info" = INFO ∧
     ParseLevel "warn" = WARN ∧ ParseLevel "error" = ERROR ∧ ParseLevel "fatal" = FATAL) ∧
    (ParseLevel "off" = INFO ∧ ParseLevel "Info" = INFO) ∧
    (∀ s : String, s ∉ levelValues.map Prod.fst → ParseLevel s = INFO) := by
  refine ⟨⟨rfl, rfl, rfl, rfl, rfl, rfl, rfl⟩, ⟨rfl, rfl, rfl, rfl, rfl, rfl⟩,
    ⟨rfl, rfl⟩, fun s h => ?_⟩
  rw [ParseLevel, lookup_eq_none_of_not_mem_keys s levelValues h]

/-- C10 witness: an arbitrary garbage string parses to `INFO`. -/
theorem parse_level_spec_witness : ParseLevel "xyz" = INFO :=
  parse_level_spec.2.2.2 "xyz" (by decide)

/-- C5 counterexample: `NewBurstFilter` accepts a negative rate; with
`rate = -1`, `maxBurst = 0`, one above-threshold decision one second after
creation drives `tokens` to `-1 < 0`, breaking the claimed invariant. -/
theorem burst_negative_rate_cex :
    (NewBurstFilter INFO (-1) 0 0).maxBurst = 0 ∧
    ((burstDecide (NewBurstFilter INFO (-1) 0 0) INFO 1).2).tokens < 0 := by
  constructor
  · rfl
  · norm_num [burstDecide, NewBurstFilter, INFO]

/-- C5 (amended: additionally `rate ≥ 0`, and calls happen at or after the
last refill, which Go's monotonic clock guarantees): `0 ≤ tokens ≤ maxBurst`
holds initially and is preserved by every `Decide`. -/
theorem burst_tokens_bounds :
    (∀ (lvl : Level) (rate : ℚ) (mb : Int) (t : ℚ), 0 ≤ mb →
      0 ≤ (NewBurstFilter lvl rate mb t).tokens ∧
      (NewBurstFilter lvl rate mb t).tokens ≤ ((NewBurstFilter lvl rate mb t).maxBurst : ℚ)) ∧
    (∀ (f : BurstF) (lvl : Level) (now : ℚ), 0 ≤ f.maxBurst → 0 ≤ f.rate →
      f.lastRefill ≤ now → 0 ≤ f.tokens → f.tokens ≤ (f.maxBurst : ℚ) →
      0 ≤ ((burstDecide f lvl now).2).tokens ∧
      ((burstDecide f lvl now).2).tokens ≤ (((burstDecide f lvl now).2).maxBurst : ℚ)) := by
  constructor
  · intro lvl rate mb t hmb
    have hq : (0 : ℚ) ≤ (mb : ℚ) := by exact_mod_cast hmb
    exact ⟨hq, le_refl _⟩
  · intro f lvl now hmb hrate hlr ht0 ht1
    have hmbq : (0 : ℚ) ≤ (f.maxBurst : ℚ) := by exact_mod_cast hmb
    have hprod : 0 ≤ (now - f.lastRefill) * f.rate := mul_nonneg (by linarith) hrate
    rw [burstDecide]
    by_cases hl : lvl < f.level
    · rw [if_pos hl]
      exact ⟨ht0, ht1⟩
    · rw [if_neg hl]
      dsimp only
      split <;> split <;> refine ⟨?_, ?_⟩ <;> dsimp only <;> linarith

/-- C5 witness: a `WARN` decision on the full-bucket `INFO` filter keeps
`tokens` within `[0, maxBurst]`. -/
theorem burst_tokens_bounds_witness :
    0 ≤ ((burstDecide burstBelow WARN 0).2).tokens ∧
    ((burstDecide burstBelow WARN 0).2).tokens ≤
      (((burstDecide burstBelow WARN 0).2).maxBurst : ℚ) :=
  burst_tokens_bounds.2 burstBelow WARN 0 (by decide) (by decide) (by decide)
    (by decide) (by decide)

/-- C8 counterexample: `"0 0 x * * ?"` has three-plus fields but no parseable
hour; `Sscanf` leaves `h` at its zero value, so the policy's hour is 0, not
the claimed default 4. -/
theorem cron_hour_unparseable_cex :
    (NewCronBasedPolicy "0 0 x * * ?" 0).hour = 0 ∧ (0 : Int) ≠ 4 :=
  ⟨by decide, by decide⟩

/-- C8 (amended): only schedules with fewer than three whitespace-separated
fields default to hour 4; with at least three fields the hour is whatever
`Sscanf %d` reads from the third field, which is 0 when nothing parses. -/
theorem cron_hour_spec :
    (∀ (s : String) (now : Int), (goFields s).length < 3 →
      (NewCronBasedPolicy s now).hour = 4) ∧
    (∀ (s : String) (now : Int) (p2 : String), (goFields s).get? 2 = some p2 →
      (NewCronBasedPolicy s now).hour = sscanfD p2) := by
  constructor
  · intro s now h
    show parseCronHour s = 4
    rw [parseCronHour]
    rw [if_neg (by omega)]
  · intro s now p2 h
    have hlen : 2 < (goFields s).length := by
      by_contra hc
      push_neg at hc
      rw [List.get?_eq_none.mpr hc] at h
      exact Option.noConfusion h
    show parseCronHour s = sscanfD p2
    rw [parseCronHour]
    rw [if_pos (by omega), h]
    rfl

/-- C8 witness: a schedule with one field defaults to hour 4; a six-field
schedule with a non-numeric hour field gets `Sscanf`'s zero value. -/
theorem cron_hour_spec_witness :
    (NewCronBasedPolicy "@daily" 5).hour = 4 ∧
    (NewCronBasedPolicy "0 0 x * * ?" 5).hour = sscanfD "x" :=
  ⟨cron_hour_spec.1 "@daily" 5 (by decide),
   cron_hour_spec.2 "0 0 x * * ?" 5 "x" (by decide)⟩

/-- A rolling appender like `rGuard` but with a positive backup count, so
cleanup actually scans. -/
def rAge : RFA :=
  { filename := "app.log", file := none, policies := [],
    maxBackups := 3, maxAge := 10, totalMaxSize := 0, currentIndex := 0,
    filter := none, layout := fun _ => "" }

/-- C1 counterexample: with a positive `maxAge` (10) but `maxBackups = 0` and
`totalMaxSize = 0`, `cleanup` returns at its guard and removes nothing, even
though an info-readable backup of `app.log` is far older than `now - maxAge`. -/
theorem cleanup_guard_skips_age_cex :
    0 < rGuard.maxAge ∧
    fOld.isDir = false ∧ fOld.infoErr = false ∧
    isBackupName rGuard.filename fOld.name = true ∧
    fOld.modTime < 100 - rGuard.maxAge ∧
    (cleanupRun rGuard 100 [fOld]).2 = [] :=
  ⟨by decide, by decide, by decide, by decide, by decide, by decide⟩

/-- C1 (amended: additionally `maxBackups > 0` or `totalMaxSize > 0`, since
otherwise `cleanup` returns without scanning): after `cleanup`, every
non-directory backup whose name strictly extends the base name, whose info is
readable, and whose modification time is strictly older than `now - maxAge`
has been removed, whether or not the `maxBackups` count was exceeded. -/
theorem cleanup_removes_old_backups (r : RFA) (now : Int) (files : List DirEntry)
    (f : DirEntry)
    (hguard : 0 < r.maxBackups ∨ 0 < r.totalMaxSize)
    (hage : 0 < r.maxAge)
    (hmem : f ∈ files) (hdir : f.isDir = false) (hinfo : f.infoErr = false)
    (hname : isBackupName r.filename f.name = true)
    (hold : f.modTime < now - r.maxAge) :
    f.name ∈ (cleanupRun r now files).2 := by
  have hguard' : ¬ (r.maxBackups ≤ 0 ∧ r.totalMaxSize ≤ 0) := by omega
  rw [cleanupRun, if_neg hguard']
  dsimp only
  refine List.mem_map.mpr ⟨f, ?_, rfl⟩
  have hfb : f ∈ collectBackups r.filename files := by
    rw [collectBackups, List.mem_filter]
    refine ⟨hmem, ?_⟩
    rw [hdir, hinfo, hname]
    rfl
  have hsort : f ∈ sortByModTime (collectBackups r.filename files) :=
    (mem_sortByModTime _ f).mpr hfb
  rcases pruneByCount_mem r.maxBackups _ f hsort with hc | hc
  · refine List.mem_append.mpr (Or.inl (List.mem_append.mpr (Or.inr ?_)))
    rw [pruneByAge, if_pos hage]
    rw [List.mem_filter]
    exact ⟨hc, decide_eq_true hold⟩
  · exact List.mem_append.mpr (Or.inl (List.mem_append.mpr (Or.inl hc)))

/-- C1 witness: with `maxBackups = 3`, `maxAge = 10`, the lone stale backup is
removed by `cleanup` at time 100. -/
theorem cleanup_removes_old_backups_witness :
    fOld.name ∈ (cleanupRun rAge 100 [fOld]).2 :=
  cleanup_removes_old_backups rAge 100 [fOld] fOld (Or.inl (by decide)) (by decide)
    (List.mem_singleton.mpr rfl) (by decide) (by decide) (by decide) (by decide)

/-- C2: with a file open, a failing rename makes `rollover` return the rename
error, attempt to reopen the original file name (succeeding whenever the
environment lets the open succeed), and delete no file (`cleanup` never runs),
and the rename error surfaces from `Append`; a successful rename is followed
by the `cleanup` removals and then a fresh open of the original name, whose
outcome `rollover` returns. -/
theorem rollover_rename_error_paths (r : RFA) (env : FsEnv) (p : String) (e : Entry)
    (hfile : r.file = some p) :
    (env.renameOk = false →
      (rollover r env).err = some GoErr.renameFailed ∧
      FsOp.openFile r.filename ∈ (rollover r env).ops ∧
      (∀ q, FsOp.removeFile q ∉ (rollover r env).ops) ∧
      (env.openOk = true → (rollover r env).st.file = some r.filename) ∧
      (applyFilterE r.filter e = true → shouldRollE r e env = true →
        (appendE r e env).err = some GoErr.renameFailed)) ∧
    (env.renameOk = true →
      (rollover r env).ops =
        FsOp.closeFile p ::
          FsOp.rename r.filename
            (nextName { r with file := none, currentIndex := r.currentIndex + 1 }) ::
          ((cleanupRun { r with file := none, currentIndex := r.currentIndex + 1 }
              env.now env.dirList).2.map FsOp.removeFile ++ [FsOp.openFile r.filename]) ∧
      (rollover r env).err = (if env.openOk then none else some GoErr.openFailed) ∧
      (env.openOk = true → (rollover r env).st.file = some r.filename)) := by
  obtain ⟨fn, fo, pol, mb, ma, ts, ci, fl, lay⟩ := r
  change fo = some p at hfile
  subst hfile
  constructor
  · intro hrn
    refine ⟨?_, ?_, ?_, ?_, ?_⟩
    · simp only [rollover, hrn]
      rfl
    · cases hok : env.openOk <;>
        simp [rollover, hrn, openE, hok]
    · intro q
      cases hok : env.openOk <;>
        simp [rollover, hrn, openE, hok]
    · intro hok
      simp [rollover, hrn, openE, hok]
    · intro hflt hroll
      simp only [appendE, hflt, Bool.true_eq_false, if_false, openE]
      simp only [hroll, if_true]
      simp only [rollover, hrn, Bool.false_eq_true, if_false]
  · intro hrn
    refine ⟨?_, ?_, ?_⟩
    · cases hok : env.openOk <;>
        simp [rollover, hrn, openE, hok]
    · cases hok : env.openOk <;>
        simp [rollover, hrn, openE, hok]
    · intro hok
      simp [rollover, hrn, openE, hok]

/-- C2 witness: on the concrete appender with an always-triggering size
policy and a failing rename, `rollover` reports the rename error with the
original file reopened, and `Append` surfaces the same error. -/
theorem rollover_rename_error_paths_witness :
    (rollover rC2 envC2).err = some GoErr.renameFailed ∧
    (rollover rC2 envC2).st.file = some "app.log" ∧
    (appendE rC2 e1 envC2).err = some GoErr.renameFailed := by
  have h := (rollover_rename_error_paths rC2 envC2 "app.log" e1 rfl).1 rfl
  exact ⟨h.1, h.2.2.2.1 rfl, h.2.2.2.2 rfl rfl⟩
